import Mathlib

set_option maxRecDepth 8000

/-!
Verification development for the SpeakSense hybrid retrieval engine.

This file shallowly embeds the retrieval subsystem of the repository:
`services/retrieval_service/retrieval.py` (score normalization, weighted
fusion, entity resolution), `services/retrieval_service/bm25_search.py`
(lexical candidate generation with entity deduplication),
`services/retrieval_service/vector_search.py` (semantic candidate
processing), and `services/retrieval_service/parameter_extraction.py`
(slot-grammar compilation and matching).

Python floats are modelled by rationals, Python dicts by association
lists with last-binding-wins lookup, and the iteration order of a Python
`set` (unspecified in CPython for strings, whose hashes are randomized)
by an explicit enumeration parameter constrained to list exactly the
set's elements once each.
-/

/-- Embeds `HybridRetrieval._normalize_scores` (retrieval.py lines 29-40):
min-max normalization of a score list, with an all-equal (or singleton)
list mapped to all ones instead of dividing by zero. -/
def normalizeScores : List ℚ → List ℚ
  | [] => []
  | s :: rest =>
    let mn := rest.foldl min s
    let mx := rest.foldl max s
    if mx = mn then List.replicate (s :: rest).length 1
    else (s :: rest).map (fun x => (x - mn) / (mx - mn))

/-- Lookup in a Python dict built by a comprehension over an association
list: a later binding for the same key overwrites an earlier one, and a
missing key falls back to the default (`dict.get(key, 0.0)` in
retrieval.py lines 75-76). -/
def pyDictGet : List (String × ℚ) → String → ℚ → ℚ
  | [], _, d => d
  | p :: ps, k, d => pyDictGet ps k (if p.1 = k then p.2 else d)

/-- Stable insertion of an element into a list kept in descending key
order: the new element passes every strictly greater key and stops in
front of the first key less than or equal to its own. -/
def insertDescBy {α : Type} (key : α → ℚ) (x : α) : List α → List α
  | [] => [x]
  | y :: ys => if key x < key y then y :: insertDescBy key x ys else x :: y :: ys

/-- Stable descending sort by a rational key; models Python
`list.sort(key=..., reverse=True)` (retrieval.py line 87) and
`sorted(..., reverse=True)` (bm25_search.py line 132), both of which are
stable. -/
def sortDescBy {α : Type} (key : α → ℚ) : List α → List α
  | [] => []
  | x :: xs => insertDescBy key x (sortDescBy key xs)

/-- Embeds the body of `HybridRetrieval._fuse_scores` (retrieval.py lines
57-84) before the final sort: normalize each candidate list, zip ids with
normalized scores into dicts, and map every id of the union enumeration to
its weighted fused score, an id absent from a side contributing that
side's default 0. `enum` models the iteration order of the Python set
union `set(bm25_dict) | set(vector_dict)`, which CPython leaves
unspecified. -/
def fusedUnsorted (wB wV : ℚ) (bC vC : List (String × ℚ)) (enum : List String) :
    List (String × ℚ) :=
  let bDict := (bC.map Prod.fst).zip (normalizeScores (bC.map Prod.snd))
  let vDict := (vC.map Prod.fst).zip (normalizeScores (vC.map Prod.snd))
  enum.map (fun i => (i, wB * pyDictGet bDict i 0 + wV * pyDictGet vDict i 0))

/-- Embeds `HybridRetrieval._fuse_scores` (retrieval.py lines 42-89): the
fused per-id scores sorted descending by score with Python's stable sort. -/
def fuseScores (wB wV : ℚ) (bC vC : List (String × ℚ)) (enum : List String) :
    List (String × ℚ) :=
  sortDescBy Prod.snd (fusedUnsorted wB wV bC vC enum)

/-- Characterizes a possible iteration order of the Python set union of
the two candidate id lists: it lists each id of the union exactly once and
nothing else. -/
def ValidEnum (bC vC : List (String × ℚ)) (enum : List String) : Prop :=
  enum.Nodup ∧
  (∀ i ∈ enum, i ∈ bC.map Prod.fst ∨ i ∈ vC.map Prod.fst) ∧
  (∀ i ∈ bC.map Prod.fst, i ∈ enum) ∧
  (∀ i ∈ vC.map Prod.fst, i ∈ enum)

instance (bC vC : List (String × ℚ)) (enum : List String) :
    Decidable (ValidEnum bC vC enum) := by
  unfold ValidEnum; infer_instance

/-- Generic first-occurrence deduplication by a string key, threading the
set of already seen keys; models the `seen_ids` pattern used throughout
the retrieval service. -/
def dedupFirstAux {α : Type} (key : α → String) : List α → List String → List α
  | [], _ => []
  | x :: xs, seen =>
    if key x ∈ seen then dedupFirstAux key xs seen
    else x :: dedupFirstAux key xs (key x :: seen)

/-- First-occurrence deduplication by a string key starting from an empty
seen set. -/
def dedupFirstBy {α : Type} (key : α → String) (l : List α) : List α :=
  dedupFirstAux key l []

/-- Modelled from the spec: the order in which entity ids are first
encountered when building the union of the BM25 and vector candidate id
lists (BM25 ids first, then vector ids, first occurrence kept). The code
itself builds the union as an unordered Python set. -/
def firstEncountered (bC vC : List (String × ℚ)) : List String :=
  dedupFirstBy (fun s => s) (bC.map Prod.fst ++ vC.map Prod.fst)

/-- Lookup of the min-max normalized score of an id in a candidate list,
0 if the id is absent; the specification-level description of one side's
contribution to the fused score. -/
def normScoreOf (cands : List (String × ℚ)) (i : String) : ℚ :=
  match ((cands.map Prod.fst).zip (normalizeScores (cands.map Prod.snd))).find?
      (fun p => p.1 = i) with
  | some p => p.2
  | none => 0

example : normalizeScores [1, 3, 2] = [0, 1, 1/2] := by
  norm_num [normalizeScores, List.foldl]
example : normalizeScores [2, 2] = [1, 1] := by
  norm_num [normalizeScores, List.foldl, List.replicate]
example : fuseScores (3/10) (7/10) [("a", 1), ("b", 3)] [("b", 5), ("c", 7)]
    ["a", "b", "c"] = [("c", 7/10), ("b", 3/10), ("a", 0)] := by
  simp [fuseScores, fusedUnsorted, normalizeScores, List.foldl, pyDictGet]
  norm_num [sortDescBy, insertDescBy]
example : ValidEnum [("a", 1), ("b", 3)] [("b", 5), ("c", 7)] ["c", "a", "b"] := by
  decide

/-!
Parameter extraction (parameter_extraction.py). Queries and phrases are
modelled as `List Char`. `re.escape` followed by the slot substitution and
`re.compile` is embedded as a parse of the phrase into literal characters
and slots, compiled to a small regex AST whose matcher implements Python's
leftmost, greedy, backtracking search semantics for exactly the constructs
the generated patterns contain: case-insensitive literals, named greedy
`.+` groups, and a trailing whitespace-tolerant end anchor.
-/

/-- Whitespace characters of Python `str.strip` / regex `\s` (ASCII). -/
def pyIsSpace (c : Char) : Bool :=
  c == ' ' || c == '\t' || c == '\n' || c == '\r' || c == '\x0b' || c == '\x0c'

/-- Embeds Python `str.strip()`. -/
def pyStrip (s : List Char) : List Char :=
  ((s.dropWhile pyIsSpace).reverse.dropWhile pyIsSpace).reverse

/-- Embeds Python `str.rstrip()`. -/
def pyRstrip (s : List Char) : List Char :=
  (s.reverse.dropWhile pyIsSpace).reverse

/-- Embeds Python `str.lower()` (ASCII case folding). -/
def pyLower (s : List Char) : List Char := s.map Char.toLower

/-- Embeds Python substring containment `needle in hay`. -/
def isSubstr : List Char → List Char → Bool
  | n, [] => n.isEmpty
  | n, c :: rest => n.isPrefixOf (c :: rest) || isSubstr n rest

/-- One element of a trigger phrase as seen by the slot pattern
`\{([^}]+)\}`: a literal character or a named slot. -/
inductive PhraseSeg : Type
  | lit (c : Char)
  | slot (name : List Char)
deriving DecidableEq

/-- Tries to read `[^}]+\}` at the head of the input: the slot name up to
the closing brace, together with the remainder after the brace. -/
def splitSlot (rest : List Char) : Option (List Char × List Char) :=
  let nm := rest.takeWhile (fun c => c != '}')
  if nm.isEmpty then none
  else
    match rest.drop nm.length with
    | '}' :: after => some (nm, after)
    | _ => none

/-- Fueled scan of a phrase for leftmost non-overlapping matches of the
slot pattern `\{([^}]+)\}` (parameter_extraction.py line 13); every other
character is a literal. Each step consumes at least one character, so
fuel `length + 1` always suffices. -/
def parseSegsF : Nat → List Char → List PhraseSeg
  | 0, _ => []
  | _ + 1, [] => []
  | fuel + 1, '{' :: rest =>
    match splitSlot rest with
    | some (nm, after) => PhraseSeg.slot nm :: parseSegsF fuel after
    | none => PhraseSeg.lit '{' :: parseSegsF fuel rest
  | fuel + 1, c :: rest => PhraseSeg.lit c :: parseSegsF fuel rest

/-- Decomposition of a trigger phrase into literals and slots. -/
def parseSegs (s : List Char) : List PhraseSeg := parseSegsF (s.length + 1) s

/-- Embeds `ParameterExtractor.has_slots` (parameter_extraction.py lines
15-17): the slot pattern matches somewhere in the phrase. -/
def hasSlots (phrase : List Char) : Bool :=
  (parseSegs phrase).any fun sg =>
    match sg with
    | PhraseSeg.slot _ => true
    | PhraseSeg.lit _ => false

/-- Slot names of a phrase in order; embeds `ParameterExtractor.get_slots`
(`findall` of the slot pattern, parameter_extraction.py line 31). -/
def slotNames (phrase : List Char) : List (List Char) :=
  (parseSegs phrase).filterMap fun sg =>
    match sg with
    | PhraseSeg.slot nm => some nm
    | PhraseSeg.lit _ => none

/-- One construct of the compiled pattern produced by `convert_to_regex`:
an escaped literal character, a named greedy `(?P<name>.+)` group, or the
trailing `\s*$` anchor. -/
inductive RSeg : Type
  | lit (c : Char)
  | group (name : List Char)
  | wsEnd
deriving DecidableEq

/-- Embeds `ParameterExtractor.convert_to_regex` (parameter_extraction.py
lines 33-62): the escaped literals and named greedy groups of the phrase
in order, with the whitespace-tolerant end anchor `\s*$` appended when the
right-stripped phrase ends in a closing brace. -/
def convertToRegex (phrase : List Char) : List RSeg :=
  ((parseSegs phrase).map fun sg =>
    match sg with
    | PhraseSeg.lit c => RSeg.lit c
    | PhraseSeg.slot nm => RSeg.group nm) ++
  (if (pyRstrip phrase).getLast? = some '}' then [RSeg.wsEnd] else [])

/-- Length of the maximal prefix a greedy `.+` can consume: `.` matches
any character except a newline. -/
def groupMax (s : List Char) : Nat := (s.takeWhile (fun c => c != '\n')).length

mutual

/-- Fueled backtracking matcher for the compiled pattern against a suffix
of the query, anchored at the start of that suffix; returns the named
group captures in pattern order. Literals compare case-insensitively
(`re.IGNORECASE`); the end anchor `\s*$` accepts exactly an all-whitespace
remainder (a trailing newline is itself whitespace). -/
def matchSegsF : Nat → List RSeg → List Char → Option (List (List Char × List Char))
  | 0, _, _ => none
  | _ + 1, [], _ => some []
  | fuel + 1, RSeg.lit c :: rs, s =>
    match s with
    | [] => none
    | a :: s' => if a.toLower == c.toLower then matchSegsF fuel rs s' else none
  | fuel + 1, RSeg.group nm :: rs, s => tryGroupF fuel nm rs s (groupMax s)
  | _ + 1, RSeg.wsEnd :: _, s => if s.all pyIsSpace then some [] else none

/-- Greedy group matching: try capture lengths from longest to shortest,
succeeding on the first length whose continuation matches. -/
def tryGroupF : Nat → List Char → List RSeg → List Char → Nat →
    Option (List (List Char × List Char))
  | 0, _, _, _, _ => none
  | _ + 1, _, _, _, 0 => none
  | fuel + 1, nm, rs, s, k + 1 =>
    match matchSegsF fuel rs (s.drop (k + 1)) with
    | some ps => some ((nm, s.take (k + 1)) :: ps)
    | none => tryGroupF fuel nm rs s k

end

/-- Fuel bound sufficient for `matchSegsF` on the given pattern and input:
every literal costs one step and every group at most `length + 2` steps. -/
def matchFuel (segs : List RSeg) (s : List Char) : Nat :=
  (segs.length + 1) * (s.length + 2)

/-- Embeds `regex.search(query)`: try every start position from the left,
returning the captures of the leftmost match. -/
def searchSuffixes (segs : List RSeg) : List Char → Option (List (List Char × List Char))
  | [] => matchSegsF (matchFuel segs []) segs []
  | c :: rest =>
    match matchSegsF (matchFuel segs (c :: rest)) segs (c :: rest) with
    | some ps => some ps
    | none => searchSuffixes segs rest

/-- Identifier characters admissible in a Python regex group name (ASCII). -/
def isIdentChar (c : Char) : Bool := c.isAlpha || c.isDigit || c == '_'

/-- Validity of a `(?P<name>...)` group name: a nonempty identifier. An
invalid name makes `re.compile` raise `re.error`. -/
def validGroupName (nm : List Char) : Bool :=
  match nm with
  | [] => false
  | c :: rest => (c.isAlpha || c == '_') && rest.all isIdentChar

/-- Boolean freedom from duplicates. -/
def nodupB : List (List Char) → Bool
  | [] => true
  | x :: xs => !(xs.contains x) && nodupB xs

/-- Compilability of the pattern `convert_to_regex` builds for a phrase:
`re.compile` succeeds exactly when every generated group name is a valid
identifier and no two groups share a name. -/
def patternCompiles (phrase : List Char) : Bool :=
  (slotNames phrase).all validGroupName && nodupB (slotNames phrase)

/-- Embeds `ParameterExtractor.extract_parameters` (parameter_extraction.py
lines 64-104): a slot-free phrase yields the empty mapping; a pattern that
fails to compile yields none (the `re.error` handler); otherwise the query
is searched and on a match every named group value is returned with
surrounding whitespace stripped, on no match none. -/
def extractParameters (query phrase : List Char) :
    Option (List (List Char × List Char)) :=
  if !(hasSlots phrase) then some []
  else if !(patternCompiles phrase) then none
  else
    match searchSuffixes (convertToRegex phrase) query with
    | some ps => some (ps.map fun p => (p.1, pyStrip p.2))
    | none => none

/-- Embeds `ParameterExtractor.match_and_extract` (parameter_extraction.py
lines 106-140): first-match-wins iteration over the trigger phrases, slot
phrases accepted when extraction succeeds, slot-free phrases on mutual
case-insensitive substring containment. -/
def matchAndExtract (query : List Char) :
    List (List Char) → Bool × Option (List Char) × List (List Char × List Char)
  | [] => (false, none, [])
  | t :: ts =>
    if hasSlots t then
      match extractParameters query t with
      | some ps => (true, some t, ps)
      | none => matchAndExtract query ts
    else
      if isSubstr (pyStrip (pyLower t)) (pyStrip (pyLower query)) ||
          isSubstr (pyStrip (pyLower query)) (pyStrip (pyLower t)) then
        (true, some t, [])
      else matchAndExtract query ts

example :
    extractParameters "search Dune by Herbert".data "search {book_name} by {author}".data =
      some [("book_name".data, "Dune".data), ("author".data, "Herbert".data)] := by
  decide

example :
    matchAndExtract "please open library app now".data ["open library app".data] =
      (true, some "open library app".data, []) := by
  decide

/-!
Document model and the three search pipelines. The BM25 scoring function
of the external `rank_bm25` library and the tokenizer of the
`preprocessing` module (not part of the sources) are abstract parameters;
the ChromaDB nearest-neighbor hit list is likewise an input. Database
lookups are functions `String → Option entity`.
-/

/-- FAQ record of the shared data model (shared/models.py). -/
structure FAQEntity where
  answer_id : String
  question : String
  answer : String
  audio_path : String
  language : String
  alternative_questions : List String
  category : String
deriving DecidableEq

/-- Intent record of the shared data model (shared/models.py). -/
structure IntentEntity where
  intent_id : String
  intent_name : String
  description : String
  trigger_phrases : List String
  action_type : String
  action_config : String
  language : String
  category : String
deriving DecidableEq

/-- One corpus entry of the BM25 index (bm25_search.py lines 43-90): a
phrase variant of a FAQ or of an Intent together with its payload. -/
inductive DocEntry : Type
  | faq (answer_id question answer audio_path language : String)
      (is_alternative : Bool)
  | intent (intent_id intent_name description trigger_phrase action_type
      action_config language category : String)
deriving DecidableEq

/-- Owning entity id of a corpus entry. -/
def entityIdOf : DocEntry → String
  | DocEntry.faq aid _ _ _ _ _ => aid
  | DocEntry.intent iid _ _ _ _ _ _ _ => iid

/-- Corpus entries contributed by one FAQ: the main question then one
entry per alternative question (bm25_search.py lines 41-71). -/
def faqDocs (f : FAQEntity) : List DocEntry :=
  DocEntry.faq f.answer_id f.question f.answer f.audio_path f.language false ::
    f.alternative_questions.map fun q =>
      DocEntry.faq f.answer_id q f.answer f.audio_path f.language true

/-- Corpus entries contributed by one Intent: one entry per trigger
phrase (bm25_search.py lines 74-90). -/
def intentDocs (i : IntentEntity) : List DocEntry :=
  i.trigger_phrases.map fun p =>
    DocEntry.intent i.intent_id i.intent_name i.description p i.action_type
      i.action_config i.language i.category

/-- Full corpus built by `BM25Search.initialize`: all FAQ entries then all
Intent entries. -/
def expandCorpus (faqs : List FAQEntity) (intents : List IntentEntity) :
    List DocEntry :=
  (faqs.map faqDocs).flatten ++ (intents.map intentDocs).flatten

/-- One result dictionary of the retrieval service; absent dictionary keys
are `none`. -/
structure SearchResult where
  rtype : String
  entityId : String
  score : ℚ
  confidence : Option ℚ := none
  matched_by : Option String := none
  question : Option String := none
  answer : Option String := none
  audio_path : Option String := none
  language : Option String := none
  matched_question : Option String := none
  is_alternative : Option Bool := none
  intent_name : Option String := none
  description : Option String := none
  action_type : Option String := none
  action_config : Option String := none
  category : Option String := none
  matched_phrase : Option String := none
  parameters : Option (List (List Char × List Char)) := none
deriving DecidableEq

/-- FAQ result dictionary of `BM25Search.search` (bm25_search.py lines
151-161). -/
def bm25FaqResult (aid q a ap lang : String) (alt : Bool) (sc : ℚ) : SearchResult :=
  { rtype := "faq", entityId := aid, score := sc, question := some q,
    answer := some a, audio_path := some ap, language := some lang,
    matched_question := some q, is_alternative := some alt }

/-- Intent result dictionary of `BM25Search.search` (bm25_search.py lines
163-196): the full intent is fetched from the database to run parameter
extraction over all its trigger phrases; on a successful match the
matched phrase replaces the corpus entry's trigger phrase. -/
def bm25IntentResult (gI : String → Option IntentEntity) (query : List Char)
    (iid nm dsc ph aty acfg lang cat : String) (sc : ℚ) : SearchResult :=
  let base : SearchResult :=
    { rtype := "intent", entityId := iid, score := sc, intent_name := some nm,
      description := some dsc, action_type := some aty,
      action_config := some acfg, language := some lang, category := some cat }
  match gI iid with
  | none => { base with matched_phrase := some ph, parameters := some [] }
  | some i =>
    match matchAndExtract query (i.trigger_phrases.map String.data) with
    | (true, some p, ps) =>
      { base with matched_phrase := some (String.mk p), parameters := some ps }
    | (true, none, ps) => { base with matched_phrase := some ph, parameters := some ps }
    | (false, _, ps) => { base with matched_phrase := some ph, parameters := some ps }

/-- Result-collection loop of `BM25Search.search` (bm25_search.py lines
134-198) over the score-ranked corpus entries: skip non-positive scores,
then keep only the first entry per owning entity id. -/
def bm25Collect (gI : String → Option IntentEntity) (query : List Char) :
    List (DocEntry × ℚ) → List String → List SearchResult
  | [], _ => []
  | (doc, sc) :: rest, seen =>
    if sc ≤ 0 then bm25Collect gI query rest seen
    else
      match doc with
      | DocEntry.faq aid q a ap lang alt =>
        if aid ∈ seen then bm25Collect gI query rest seen
        else bm25FaqResult aid q a ap lang alt sc ::
          bm25Collect gI query rest (aid :: seen)
      | DocEntry.intent iid nm dsc ph aty acfg lang cat =>
        if iid ∈ seen then bm25Collect gI query rest seen
        else bm25IntentResult gI query iid nm dsc ph aty acfg lang cat sc ::
          bm25Collect gI query rest (iid :: seen)

/-- Embeds the scoring part of `BM25Search.search` (bm25_search.py lines
128-198): rank all corpus entries by their BM25 scores with Python's
stable descending sort (ties keep increasing corpus index), truncate to
`top_k` entries, and collect deduplicated results. `scores` is the output
of the external `rank_bm25` scorer for the query, one score per corpus
entry. -/
def bm25Search (corpus : List DocEntry) (scores : List ℚ) (top_k : Nat)
    (gI : String → Option IntentEntity) (query : List Char) : List SearchResult :=
  bm25Collect gI query ((sortDescBy Prod.snd (corpus.zip scores)).take top_k) []

/-- Mutable state of the `BM25Search` singleton: the current corpus and
the initialization flag (`self.bm25 is None` coincides with
`initialized = False`, the two are set together). -/
structure BM25State where
  corpus : List DocEntry
  initialized : Bool
deriving DecidableEq

/-- Embeds `BM25Search.initialize` (bm25_search.py lines 25-98): an empty
document store returns early leaving the state untouched; otherwise the
corpus is replaced and the index is marked initialized exactly when the
new corpus is nonempty (the flag is never reset). -/
def bm25Initialize (st : BM25State) (faqs : List FAQEntity)
    (intents : List IntentEntity) : BM25State :=
  if faqs.isEmpty && intents.isEmpty then st
  else
    let corpus := expandCorpus faqs intents
    { corpus := corpus, initialized := st.initialized || !corpus.isEmpty }

/-- Embeds `BM25Search.search` including its guards (bm25_search.py lines
104-127): an uninitialized index first attempts lazy initialization from
the document store, a still-uninitialized index or an empty token list
returns no results. `queryTokens` stands for the tokenizer of the
`preprocessing` module (absent from the sources) applied to the query, and
`scoreFn` for the external BM25 scorer over the current corpus. -/
def bm25SearchFull (st : BM25State) (faqs : List FAQEntity)
    (intents : List IntentEntity) (queryTokens : List String)
    (scoreFn : List DocEntry → List ℚ) (top_k : Nat)
    (gI : String → Option IntentEntity) (query : List Char) :
    List SearchResult × BM25State :=
  let st' := if !st.initialized then bm25Initialize st faqs intents else st
  if !st'.initialized then ([], st')
  else if queryTokens.isEmpty then ([], st')
  else (bm25Search st'.corpus (scoreFn st'.corpus) top_k gI query, st')

/-- One raw ChromaDB neighbor as consumed by `VectorSearch.search`
(vector_search.py lines 233-241): its metadata (entity type with the
`'faq'` default applied, owning id, phrase payload) and its distance. -/
structure VecHit where
  htype : String
  hid : String
  hquestion : String
  trigger_phrase : String
  is_alternative : Bool
  distance : ℚ
deriving DecidableEq

/-- FAQ result dictionary of `VectorSearch.search` (vector_search.py lines
254-265), built from the database record and the hit metadata. -/
def vecFaqResult (h : VecHit) (f : FAQEntity) (sim : ℚ) : SearchResult :=
  { rtype := "faq", entityId := h.hid, score := sim, question := some f.question,
    answer := some f.answer, audio_path := some f.audio_path,
    language := some f.language, matched_question := some h.hquestion,
    is_alternative := some h.is_alternative }

/-- Intent result dictionary of `VectorSearch.search` (vector_search.py
lines 278-297): parameters are extracted over the database record's
trigger phrases; without a match the hit's own trigger phrase is kept. -/
def vecIntentResult (query : List Char) (h : VecHit) (i : IntentEntity)
    (sim : ℚ) : SearchResult :=
  let base : SearchResult :=
    { rtype := "intent", entityId := h.hid, score := sim,
      intent_name := some i.intent_name, description := some i.description,
      action_type := some i.action_type, action_config := some i.action_config,
      language := some i.language, category := some i.category }
  match matchAndExtract query (i.trigger_phrases.map String.data) with
  | (true, some p, ps) =>
    { base with matched_phrase := some (String.mk p), parameters := some ps }
  | (true, none, ps) =>
    { base with matched_phrase := some h.trigger_phrase, parameters := some ps }
  | (false, _, ps) =>
    { base with matched_phrase := some h.trigger_phrase, parameters := some ps }

/-- Result-collection loop of `VectorSearch.search` (vector_search.py
lines 230-297): distances become similarities `1 - d`, each entity id is
processed once (the id is marked seen before the database lookup), and a
hit whose id no longer resolves is dropped. -/
def vectorCollect (gF : String → Option FAQEntity)
    (gI : String → Option IntentEntity) (query : List Char) :
    List VecHit → List String → List SearchResult
  | [], _ => []
  | h :: rest, seen =>
    if h.htype = "faq" then
      if h.hid ∈ seen then vectorCollect gF gI query rest seen
      else
        match gF h.hid with
        | some f => vecFaqResult h f (1 - h.distance) ::
            vectorCollect gF gI query rest (h.hid :: seen)
        | none => vectorCollect gF gI query rest (h.hid :: seen)
    else if h.htype = "intent" then
      if h.hid ∈ seen then vectorCollect gF gI query rest seen
      else
        match gI h.hid with
        | some i => vecIntentResult query h i (1 - h.distance) ::
            vectorCollect gF gI query rest (h.hid :: seen)
        | none => vectorCollect gF gI query rest (h.hid :: seen)
    else vectorCollect gF gI query rest seen

/-- Embeds `VectorSearch.search` (vector_search.py lines 209-300) given
the raw neighbor list returned by ChromaDB: collect deduplicated results
and truncate to `top_k`. -/
def vectorSearch (hits : List VecHit) (top_k : Nat)
    (gF : String → Option FAQEntity) (gI : String → Option IntentEntity)
    (query : List Char) : List SearchResult :=
  (vectorCollect gF gI query hits []).take top_k

/-- FAQ result dictionary of the hybrid branch of `HybridRetrieval.search`
(retrieval.py lines 153-165). -/
def hybridFaqResult (f : FAQEntity) (sc : ℚ) : SearchResult :=
  { rtype := "faq", entityId := f.answer_id, score := sc,
    confidence := some sc, matched_by := some "hybrid",
    question := some f.question, answer := some f.answer,
    audio_path := some f.audio_path, language := some f.language }

/-- Intent result dictionary of the hybrid branch of
`HybridRetrieval.search` (retrieval.py lines 167-189); the matched phrase
is `None` when no trigger phrase matched. -/
def hybridIntentResult (query : List Char) (i : IntentEntity) (sc : ℚ) :
    SearchResult :=
  let base : SearchResult :=
    { rtype := "intent", entityId := i.intent_id, score := sc,
      confidence := some sc, matched_by := some "hybrid",
      intent_name := some i.intent_name, description := some i.description,
      action_type := some i.action_type, action_config := some i.action_config,
      language := some i.language, category := some i.category }
  match matchAndExtract query (i.trigger_phrases.map String.data) with
  | (true, some p, ps) =>
    { base with matched_phrase := some (String.mk p), parameters := some ps }
  | (true, none, ps) => { base with matched_phrase := none, parameters := some ps }
  | (false, _, ps) => { base with matched_phrase := none, parameters := some ps }

/-- Entity-resolution loop of the hybrid branch (retrieval.py lines
150-191): each fused id is looked up as a FAQ first, as an Intent only on
a FAQ miss, and is skipped silently when neither lookup resolves. -/
def resolveFused (gF : String → Option FAQEntity)
    (gI : String → Option IntentEntity) (query : List Char) :
    List (String × ℚ) → List SearchResult
  | [] => []
  | (docId, sc) :: rest =>
    match gF docId with
    | some f => hybridFaqResult f sc :: resolveFused gF gI query rest
    | none =>
      match gI docId with
      | some i => hybridIntentResult query i sc :: resolveFused gF gI query rest
      | none => resolveFused gF gI query rest

/-- Embeds the hybrid branch of `HybridRetrieval.search` (retrieval.py
lines 111-191): a blank query or two empty candidate lists return no
results, otherwise the fused ranking is truncated to `top_k` and resolved
against the document store. -/
def hybridSearch (wB wV : ℚ) (bC vC : List (String × ℚ)) (enum : List String)
    (top_k : Nat) (gF : String → Option FAQEntity)
    (gI : String → Option IntentEntity) (query : List Char) : List SearchResult :=
  if (pyStrip query).isEmpty then []
  else if bC.isEmpty && vC.isEmpty then []
  else resolveFused gF gI query ((fuseScores wB wV bC vC enum).take top_k)

/-- Post-processing of the `bm25` and `vector` branches of
`HybridRetrieval.search` (retrieval.py lines 119-133): every result gets
`matched_by` set and `confidence` copied from `score`, then the list is
truncated to `top_k`. -/
def applyMatchedBy (mb : String) (results : List SearchResult) : List SearchResult :=
  results.map fun r => { r with matched_by := some mb, confidence := some r.score }

/-- The `method="bm25"` branch of `HybridRetrieval.search` applied to the
results of `BM25Search.search`. -/
def searchBM25Method (results : List SearchResult) (top_k : Nat) : List SearchResult :=
  (applyMatchedBy "bm25" results).take top_k

/-- The `method="vector"` branch of `HybridRetrieval.search` applied to
the results of `VectorSearch.search`. -/
def searchVectorMethod (results : List SearchResult) (top_k : Nat) : List SearchResult :=
  (applyMatchedBy "vector" results).take top_k

/-!
Lemmas about the stable descending sort, the dict lookup and min-max
normalization.
-/

theorem insertDescBy_perm {α : Type} (key : α → ℚ) (x : α) (l : List α) :
    (insertDescBy key x l).Perm (x :: l) := by
  induction l with
  | nil => simp [insertDescBy]
  | cons y ys ih =>
    simp only [insertDescBy]
    by_cases h : key x < key y
    · rw [if_pos h]
      exact (ih.cons y).trans (List.Perm.swap x y ys)
    · rw [if_neg h]

theorem sortDescBy_perm {α : Type} (key : α → ℚ) (l : List α) :
    (sortDescBy key l).Perm l := by
  induction l with
  | nil => simp [sortDescBy]
  | cons x xs ih =>
    exact (insertDescBy_perm key x (sortDescBy key xs)).trans (ih.cons x)

theorem insertDescBy_sorted {α : Type} (key : α → ℚ) (x : α) (l : List α)
    (h : l.Pairwise (fun a b => key b ≤ key a)) :
    (insertDescBy key x l).Pairwise (fun a b => key b ≤ key a) := by
  induction l with
  | nil => simp [insertDescBy]
  | cons y ys ih =>
    rcases List.pairwise_cons.1 h with ⟨hy, hys⟩
    simp only [insertDescBy]
    by_cases hxy : key x < key y
    · rw [if_pos hxy]
      refine List.pairwise_cons.2 ⟨?_, ih hys⟩
      intro a ha
      rcases List.mem_cons.1 ((insertDescBy_perm key x ys).mem_iff.1 ha) with rfl | ha2
      · exact le_of_lt hxy
      · exact hy a ha2
    · rw [if_neg hxy]
      have hyx : key y ≤ key x := le_of_not_lt hxy
      refine List.pairwise_cons.2 ⟨?_, h⟩
      intro a ha
      rcases List.mem_cons.1 ha with rfl | ha2
      · exact hyx
      · exact le_trans (hy a ha2) hyx

theorem sortDescBy_sorted {α : Type} (key : α → ℚ) (l : List α) :
    (sortDescBy key l).Pairwise (fun a b => key b ≤ key a) := by
  induction l with
  | nil => simp [sortDescBy]
  | cons x xs ih => exact insertDescBy_sorted key x _ ih

theorem filter_insertDescBy {α : Type} (key : α → ℚ) (x : α) (l : List α) (q : ℚ) :
    (insertDescBy key x l).filter (fun a => decide (key a = q)) =
      if key x = q then x :: l.filter (fun a => decide (key a = q))
      else l.filter (fun a => decide (key a = q)) := by
  induction l with
  | nil => by_cases hxq : key x = q <;> simp [insertDescBy, List.filter, hxq]
  | cons y ys ih =>
    simp only [insertDescBy]
    by_cases hxy : key x < key y
    · rw [if_pos hxy]
      by_cases hyq : key y = q
      · have hxq : ¬ key x = q := fun hxq => absurd hxy (by rw [hxq, hyq]; exact lt_irrefl q)
        simp [List.filter_cons, hyq, hxq, ih]
      · by_cases hxq : key x = q
        · simp [List.filter_cons, hyq, hxq, ih]
        · simp [List.filter_cons, hyq, hxq, ih]
    · rw [if_neg hxy]
      by_cases hxq : key x = q
      · simp [List.filter_cons, hxq]
      · simp [List.filter_cons, hxq]

theorem filter_sortDescBy {α : Type} (key : α → ℚ) (l : List α) (q : ℚ) :
    (sortDescBy key l).filter (fun a => decide (key a = q)) =
      l.filter (fun a => decide (key a = q)) := by
  induction l with
  | nil => rfl
  | cons x xs ih =>
    simp only [sortDescBy]
    rw [filter_insertDescBy]
    by_cases hxq : key x = q
    · simp [List.filter_cons, hxq, ih]
    · simp [List.filter_cons, hxq, ih]

theorem pyDictGet_of_not_mem (l : List (String × ℚ)) (k : String) (d : ℚ)
    (h : k ∉ l.map Prod.fst) : pyDictGet l k d = d := by
  induction l generalizing d with
  | nil => rfl
  | cons p ps ih =>
    simp only [List.map_cons, List.mem_cons, not_or] at h
    simp only [pyDictGet]
    rw [if_neg fun hh => h.1 hh.symm]
    exact ih d h.2

theorem pyDictGet_mem_or (l : List (String × ℚ)) (k : String) (d : ℚ) :
    pyDictGet l k d = d ∨ pyDictGet l k d ∈ l.map Prod.snd := by
  induction l generalizing d with
  | nil => exact Or.inl rfl
  | cons p ps ih =>
    simp only [pyDictGet]
    rcases ih (if p.1 = k then p.2 else d) with h | h
    · rw [h]
      by_cases hc : p.1 = k
      · rw [if_pos hc]; exact Or.inr (by simp)
      · rw [if_neg hc]; exact Or.inl rfl
    · exact Or.inr (by simp only [List.map_cons, List.mem_cons]; exact Or.inr h)

theorem pyDictGet_nodup (l : List (String × ℚ)) (k : String) (d : ℚ)
    (h : (l.map Prod.fst).Nodup) :
    pyDictGet l k d =
      (match l.find? (fun p => decide (p.1 = k)) with
        | some p => p.2
        | none => d) := by
  induction l generalizing d with
  | nil => rfl
  | cons p ps ih =>
    simp only [List.map_cons, List.nodup_cons] at h
    simp only [pyDictGet]
    by_cases hc : p.1 = k
    · rw [if_pos hc, pyDictGet_of_not_mem _ _ _ (hc ▸ h.1)]
      simp [List.find?, hc]
    · rw [if_neg hc, ih d h.2]
      simp [List.find?, hc]

theorem foldl_min_le (rest : List ℚ) (s : ℚ) :
    ∀ x ∈ s :: rest, rest.foldl min s ≤ x := by
  induction rest generalizing s with
  | nil =>
    intro x hx
    rcases List.mem_cons.1 hx with rfl | hx2
    · exact le_refl x
    · cases hx2
  | cons r rs ih =>
    intro x hx
    simp only [List.foldl_cons]
    rcases List.mem_cons.1 hx with rfl | hx2
    · exact le_trans (ih (min x r) (min x r) (List.mem_cons_self _ _)) (min_le_left _ _)
    · rcases List.mem_cons.1 hx2 with rfl | hx3
      · exact le_trans (ih (min s x) (min s x) (List.mem_cons_self _ _)) (min_le_right _ _)
      · exact ih (min s r) x (List.mem_cons_of_mem _ hx3)

theorem le_foldl_max (rest : List ℚ) (s : ℚ) :
    ∀ x ∈ s :: rest, x ≤ rest.foldl max s := by
  induction rest generalizing s with
  | nil =>
    intro x hx
    rcases List.mem_cons.1 hx with rfl | hx2
    · exact le_refl x
    · cases hx2
  | cons r rs ih =>
    intro x hx
    simp only [List.foldl_cons]
    rcases List.mem_cons.1 hx with rfl | hx2
    · exact le_trans (le_max_left _ _) (ih (max x r) (max x r) (List.mem_cons_self _ _))
    · rcases List.mem_cons.1 hx2 with rfl | hx3
      · exact le_trans (le_max_right _ _) (ih (max s x) (max s x) (List.mem_cons_self _ _))
      · exact ih (max s r) x (List.mem_cons_of_mem _ hx3)

theorem foldl_min_const (rest : List ℚ) (s : ℚ) (h : ∀ x ∈ rest, x = s) :
    rest.foldl min s = s := by
  induction rest with
  | nil => rfl
  | cons r rs ih =>
    have hr : r = s := h r (List.mem_cons_self _ _)
    simp only [List.foldl_cons, hr, min_self]
    exact ih fun x hx => h x (List.mem_cons_of_mem _ hx)

theorem foldl_max_const (rest : List ℚ) (s : ℚ) (h : ∀ x ∈ rest, x = s) :
    rest.foldl max s = s := by
  induction rest with
  | nil => rfl
  | cons r rs ih =>
    have hr : r = s := h r (List.mem_cons_self _ _)
    simp only [List.foldl_cons, hr, max_self]
    exact ih fun x hx => h x (List.mem_cons_of_mem _ hx)

theorem normalizeScores_length (l : List ℚ) :
    (normalizeScores l).length = l.length := by
  cases l with
  | nil => rfl
  | cons s rest =>
    simp only [normalizeScores]
    split
    · simp
    · simp

theorem normalizeScores_bounds (l : List ℚ) :
    ∀ x ∈ normalizeScores l, 0 ≤ x ∧ x ≤ 1 := by
  cases l with
  | nil => intro x hx; cases hx
  | cons s rest =>
    intro x hx
    simp only [normalizeScores] at hx
    by_cases h : rest.foldl max s = rest.foldl min s
    · rw [if_pos h] at hx
      have := List.eq_of_mem_replicate hx
      subst this
      exact ⟨by norm_num, le_refl 1⟩
    · rw [if_neg h] at hx
      rcases List.mem_map.1 hx with ⟨y, hy, rfl⟩
      have hmin := foldl_min_le rest s y hy
      have hmax := le_foldl_max rest s y hy
      have hminmax : rest.foldl min s ≤ rest.foldl max s :=
        le_trans (foldl_min_le rest s s (List.mem_cons_self _ _))
          (le_foldl_max rest s s (List.mem_cons_self _ _))
      have hlt : rest.foldl min s < rest.foldl max s :=
        lt_of_le_of_ne hminmax fun hh => h hh.symm
      constructor
      · exact div_nonneg (by linarith) (by linarith)
      · rw [div_le_one (by linarith)]
        linarith

theorem pyDictGet_zip_norm (cands : List (String × ℚ)) (i : String)
    (h : (cands.map Prod.fst).Nodup) :
    pyDictGet ((cands.map Prod.fst).zip (normalizeScores (cands.map Prod.snd))) i 0 =
      normScoreOf cands i := by
  have hlen : (cands.map Prod.fst).length ≤
      (normalizeScores (cands.map Prod.snd)).length := by
    rw [normalizeScores_length]; simp
  have hkeys : ((cands.map Prod.fst).zip
      (normalizeScores (cands.map Prod.snd))).map Prod.fst = cands.map Prod.fst :=
    List.map_fst_zip _ _ hlen
  rw [pyDictGet_nodup _ _ _ (by rw [hkeys]; exact h)]
  rfl

theorem pyDictGet_zip_bounds (cands : List (String × ℚ)) (i : String) :
    0 ≤ pyDictGet ((cands.map Prod.fst).zip
        (normalizeScores (cands.map Prod.snd))) i 0 ∧
      pyDictGet ((cands.map Prod.fst).zip
        (normalizeScores (cands.map Prod.snd))) i 0 ≤ 1 := by
  rcases pyDictGet_mem_or ((cands.map Prod.fst).zip
      (normalizeScores (cands.map Prod.snd))) i 0 with h | h
  · rw [h]; norm_num
  · have hlen : (normalizeScores (cands.map Prod.snd)).length ≤
        (cands.map Prod.fst).length := by
      rw [normalizeScores_length]; simp
    rw [List.map_snd_zip _ _ hlen] at h
    exact normalizeScores_bounds _ _ h

theorem mem_fusedUnsorted (wB wV : ℚ) (bC vC : List (String × ℚ))
    (enum : List String) (i : String) (hb : (bC.map Prod.fst).Nodup)
    (hv : (vC.map Prod.fst).Nodup) (hi : i ∈ enum) :
    (i, wB * normScoreOf bC i + wV * normScoreOf vC i) ∈
      fusedUnsorted wB wV bC vC enum := by
  simp only [fusedUnsorted]
  refine List.mem_map.2 ⟨i, hi, ?_⟩
  rw [pyDictGet_zip_norm bC i hb, pyDictGet_zip_norm vC i hv]

theorem map_fst_map_pair {β : Type} (g : String → β) (l : List String) :
    (l.map fun i => (i, g i)).map Prod.fst = l := by
  induction l with
  | nil => rfl
  | cons a as ih => simp only [List.map_cons]; rw [ih]

theorem fusedUnsorted_map_fst (wB wV : ℚ) (bC vC : List (String × ℚ))
    (enum : List String) :
    (fusedUnsorted wB wV bC vC enum).map Prod.fst = enum := by
  simp only [fusedUnsorted]
  exact map_fst_map_pair _ enum

theorem fuseScores_perm (wB wV : ℚ) (bC vC : List (String × ℚ))
    (enum : List String) :
    (fuseScores wB wV bC vC enum).Perm (fusedUnsorted wB wV bC vC enum) :=
  sortDescBy_perm Prod.snd _

theorem fuseScores_bounds (wB wV : ℚ) (bC vC : List (String × ℚ))
    (enum : List String) (hwB : 0 ≤ wB) (hwV : 0 ≤ wV) (hsum : wB + wV = 1) :
    ∀ p ∈ fuseScores wB wV bC vC enum, 0 ≤ p.2 ∧ p.2 ≤ 1 := by
  intro p hp
  have hp2 : p ∈ fusedUnsorted wB wV bC vC enum :=
    (fuseScores_perm wB wV bC vC enum).mem_iff.1 hp
  simp only [fusedUnsorted, List.mem_map] at hp2
  obtain ⟨i, hi, rfl⟩ := hp2
  obtain ⟨hb0, hb1⟩ := pyDictGet_zip_bounds bC i
  obtain ⟨hv0, hv1⟩ := pyDictGet_zip_bounds vC i
  dsimp only
  constructor
  · nlinarith [mul_nonneg hwB hb0, mul_nonneg hwV hv0]
  · nlinarith [mul_le_mul_of_nonneg_left hb1 hwB, mul_le_mul_of_nonneg_left hv1 hwV]

theorem normalizeScores_const (l : List ℚ) (c : ℚ) (hne : l ≠ [])
    (h : ∀ x ∈ l, x = c) : normalizeScores l = List.replicate l.length 1 := by
  cases l with
  | nil => exact absurd rfl hne
  | cons s rest =>
    have hs : s = c := h s (List.mem_cons_self _ _)
    have hrest : ∀ x ∈ rest, x = s := by
      intro x hx
      rw [h x (List.mem_cons_of_mem _ hx), hs]
    simp only [normalizeScores]
    rw [if_pos (by rw [foldl_min_const rest s hrest, foldl_max_const rest s hrest])]

/-!
Lemmas about the result collectors and the entity-resolution loop.
-/

/-- Database lookups return a FAQ carrying the id it was looked up by. -/
def FaqLookupConsistent (gF : String → Option FAQEntity) : Prop :=
  ∀ i f, gF i = some f → f.answer_id = i

/-- Database lookups return an Intent carrying the id it was looked up by. -/
def IntentLookupConsistent (gI : String → Option IntentEntity) : Prop :=
  ∀ i it, gI i = some it → it.intent_id = i

theorem bm25IntentResult_entityId (gI : String → Option IntentEntity)
    (query : List Char) (iid nm dsc ph aty acfg lang cat : String) (sc : ℚ) :
    (bm25IntentResult gI query iid nm dsc ph aty acfg lang cat sc).entityId = iid := by
  simp only [bm25IntentResult]
  cases gI iid with
  | none => rfl
  | some i =>
    rcases hm : matchAndExtract query (i.trigger_phrases.map String.data) with ⟨b, op, ps⟩
    cases b <;> cases op <;> simp [hm]

theorem bm25IntentResult_score (gI : String → Option IntentEntity)
    (query : List Char) (iid nm dsc ph aty acfg lang cat : String) (sc : ℚ) :
    (bm25IntentResult gI query iid nm dsc ph aty acfg lang cat sc).score = sc := by
  simp only [bm25IntentResult]
  cases gI iid with
  | none => rfl
  | some i =>
    rcases hm : matchAndExtract query (i.trigger_phrases.map String.data) with ⟨b, op, ps⟩
    cases b <;> cases op <;> simp [hm]

theorem vecIntentResult_entityId (query : List Char) (h : VecHit)
    (i : IntentEntity) (sim : ℚ) :
    (vecIntentResult query h i sim).entityId = h.hid := by
  simp only [vecIntentResult]
  rcases hm : matchAndExtract query (i.trigger_phrases.map String.data) with ⟨b, op, ps⟩
  cases b <;> cases op <;> simp [hm]

theorem hybridIntentResult_fields (query : List Char) (i : IntentEntity) (sc : ℚ) :
    (hybridIntentResult query i sc).confidence = some sc ∧
      (hybridIntentResult query i sc).score = sc ∧
      (hybridIntentResult query i sc).entityId = i.intent_id := by
  simp only [hybridIntentResult]
  rcases hm : matchAndExtract query (i.trigger_phrases.map String.data) with ⟨b, op, ps⟩
  cases b <;> cases op <;> simp [hm]

theorem dedupFirstAux_key_not_seen {α : Type} (key : α → String) :
    ∀ (l : List α) (seen : List String) (x : α),
      x ∈ dedupFirstAux key l seen → key x ∉ seen := by
  intro l
  induction l with
  | nil => intro seen x hx; cases hx
  | cons a as ih =>
    intro seen x hx
    by_cases ha : key a ∈ seen
    · exact ih seen x (by simpa [dedupFirstAux, ha] using hx)
    · simp only [dedupFirstAux, if_neg ha] at hx
      rcases List.mem_cons.1 hx with rfl | hx2
      · exact ha
      · exact fun hmem => (ih _ x hx2) (List.mem_cons_of_mem _ hmem)

theorem dedupFirstAux_nodup_keys {α : Type} (key : α → String) :
    ∀ (l : List α) (seen : List String),
      ((dedupFirstAux key l seen).map key).Nodup := by
  intro l
  induction l with
  | nil => intro seen; simp [dedupFirstAux]
  | cons a as ih =>
    intro seen
    by_cases ha : key a ∈ seen
    · simpa [dedupFirstAux, ha] using ih seen
    · simp only [dedupFirstAux, if_neg ha, List.map_cons, List.nodup_cons]
      refine ⟨?_, ih _⟩
      intro hmem
      rcases List.mem_map.1 hmem with ⟨y, hy, hky⟩
      have hyc : key y ∈ key a :: seen := by
        rw [hky]; exact List.mem_cons_self _ _
      exact dedupFirstAux_key_not_seen key as _ y hy hyc

theorem cons_seen_step (tailIds : List String) (i : String) (seen : List String)
    (h1 : ∀ j ∈ tailIds, j ∉ i :: seen) (h2 : tailIds.Nodup) (hi : i ∉ seen) :
    (∀ j ∈ i :: tailIds, j ∉ seen) ∧ (i :: tailIds).Nodup := by
  constructor
  · intro j hj
    rcases List.mem_cons.1 hj with rfl | hj2
    · exact hi
    · exact fun hs => h1 j hj2 (List.mem_cons_of_mem _ hs)
  · exact List.nodup_cons.2 ⟨fun hmem => h1 i hmem (List.mem_cons_self _ _), h2⟩

theorem skip_seen_step (tailIds : List String) (i : String) (seen : List String)
    (h1 : ∀ j ∈ tailIds, j ∉ i :: seen) (h2 : tailIds.Nodup) :
    (∀ j ∈ tailIds, j ∉ seen) ∧ tailIds.Nodup :=
  ⟨fun j hj hs => h1 j hj (List.mem_cons_of_mem _ hs), h2⟩

theorem bm25Collect_proj (gI : String → Option IntentEntity) (query : List Char) :
    ∀ (l : List (DocEntry × ℚ)) (seen : List String),
      (bm25Collect gI query l seen).map (fun r => (r.entityId, r.score)) =
        (dedupFirstAux (fun p => entityIdOf p.1)
            (l.filter fun p => decide (0 < p.2)) seen).map
          (fun p => (entityIdOf p.1, p.2)) := by
  intro l
  induction l with
  | nil => intro seen; rfl
  | cons p rest ih =>
    intro seen
    obtain ⟨doc, sc⟩ := p
    by_cases hsc : sc ≤ 0
    · have hfilt : decide (0 < sc) = false := by simp [not_lt.2 hsc]
      simp only [bm25Collect, if_pos hsc, List.filter_cons, hfilt]
      simpa using ih seen
    · have hfilt : decide (0 < sc) = true := by simp [lt_of_not_le hsc]
      cases doc with
      | faq aid q a ap lang alt =>
        by_cases hseen : aid ∈ seen
        · simp only [bm25Collect, if_neg hsc, if_pos hseen, List.filter_cons, hfilt,
            if_true, dedupFirstAux, entityIdOf]
          simpa [dedupFirstAux, entityIdOf, hseen] using ih seen
        · simp only [bm25Collect, if_neg hsc, if_neg hseen, List.filter_cons, hfilt,
            if_true, List.map_cons]
          rw [ih (aid :: seen)]
          simp [dedupFirstAux, entityIdOf, hseen, bm25FaqResult]
      | intent iid nm dsc ph aty acfg lang cat =>
        by_cases hseen : iid ∈ seen
        · simp only [bm25Collect, if_neg hsc, if_pos hseen, List.filter_cons, hfilt,
            if_true, dedupFirstAux, entityIdOf]
          simpa [dedupFirstAux, entityIdOf, hseen] using ih seen
        · simp only [bm25Collect, if_neg hsc, if_neg hseen, List.filter_cons, hfilt,
            if_true, List.map_cons]
          rw [ih (iid :: seen)]
          simp [dedupFirstAux, entityIdOf, hseen, bm25IntentResult_entityId,
            bm25IntentResult_score]

theorem bm25Collect_ids_nodup (gI : String → Option IntentEntity) (query : List Char)
    (l : List (DocEntry × ℚ)) (seen : List String) :
    ((bm25Collect gI query l seen).map SearchResult.entityId).Nodup := by
  have hproj := bm25Collect_proj gI query l seen
  have hmap : (bm25Collect gI query l seen).map SearchResult.entityId =
      ((bm25Collect gI query l seen).map (fun r => (r.entityId, r.score))).map Prod.fst := by
    simp [List.map_map]
  rw [hmap, hproj, List.map_map]
  have := dedupFirstAux_nodup_keys (fun p : DocEntry × ℚ => entityIdOf p.1)
    (l.filter fun p => decide (0 < p.2)) seen
  simpa [List.map_map] using this

theorem vectorCollect_ids (gF : String → Option FAQEntity)
    (gI : String → Option IntentEntity) (query : List Char) :
    ∀ (hits : List VecHit) (seen : List String),
      (∀ i ∈ (vectorCollect gF gI query hits seen).map SearchResult.entityId,
        i ∉ seen) ∧
      ((vectorCollect gF gI query hits seen).map SearchResult.entityId).Nodup := by
  intro hits
  induction hits with
  | nil =>
    intro seen
    exact ⟨fun i hi => absurd hi (by simp [vectorCollect]), by simp [vectorCollect]⟩
  | cons h rest ih =>
    intro seen
    by_cases hf : h.htype = "faq"
    · by_cases hseen : h.hid ∈ seen
      · simp only [vectorCollect, if_pos hf, if_pos hseen]
        exact ih seen
      · cases hg : gF h.hid with
        | some f =>
          simp only [vectorCollect, if_pos hf, if_neg hseen, hg, List.map_cons]
          have hid : (vecFaqResult h f (1 - h.distance)).entityId = h.hid := rfl
          rw [hid]
          exact cons_seen_step _ _ _ (ih (h.hid :: seen)).1 (ih (h.hid :: seen)).2 hseen
        | none =>
          simp only [vectorCollect, if_pos hf, if_neg hseen, hg]
          exact skip_seen_step _ h.hid _ (ih (h.hid :: seen)).1 (ih (h.hid :: seen)).2
    · by_cases hi : h.htype = "intent"
      · by_cases hseen : h.hid ∈ seen
        · simp only [vectorCollect, if_neg hf, if_pos hi, if_pos hseen]
          exact ih seen
        · cases hg : gI h.hid with
          | some it =>
            simp only [vectorCollect, if_neg hf, if_pos hi, if_neg hseen, hg,
              List.map_cons, vecIntentResult_entityId]
            exact cons_seen_step _ _ _ (ih (h.hid :: seen)).1 (ih (h.hid :: seen)).2 hseen
          | none =>
            simp only [vectorCollect, if_neg hf, if_pos hi, if_neg hseen, hg]
            exact skip_seen_step _ h.hid _ (ih (h.hid :: seen)).1 (ih (h.hid :: seen)).2
      · simp only [vectorCollect, if_neg hf, if_neg hi]
        exact ih seen

theorem resolveFused_ids (gF : String → Option FAQEntity)
    (gI : String → Option IntentEntity) (query : List Char)
    (hF : FaqLookupConsistent gF) (hI : IntentLookupConsistent gI) :
    ∀ pairs : List (String × ℚ),
      (∀ i ∈ (resolveFused gF gI query pairs).map SearchResult.entityId,
        i ∈ pairs.map Prod.fst) ∧
      ((pairs.map Prod.fst).Nodup →
        ((resolveFused gF gI query pairs).map SearchResult.entityId).Nodup) := by
  intro pairs
  induction pairs with
  | nil => exact ⟨fun i hi => absurd hi (by simp [resolveFused]), fun _ => by simp [resolveFused]⟩
  | cons p rest ih =>
    obtain ⟨i, sc⟩ := p
    cases hf : gF i with
    | some f =>
      have hid : (hybridFaqResult f sc).entityId = i := by
        simp [hybridFaqResult, hF i f hf]
      constructor
      · intro j hj
        simp only [resolveFused, hf, List.map_cons, hid, List.mem_cons] at hj
        rcases hj with rfl | hj2
        · exact List.mem_cons_self _ _
        · exact List.mem_cons_of_mem _ (ih.1 j hj2)
      · intro hnd
        simp only [List.map_cons, List.nodup_cons] at hnd
        simp only [resolveFused, hf, List.map_cons, hid, List.nodup_cons]
        exact ⟨fun hmem => hnd.1 (ih.1 i hmem), ih.2 hnd.2⟩
    | none =>
      cases hg : gI i with
      | some it =>
        have hid : (hybridIntentResult query it sc).entityId = i := by
          rw [(hybridIntentResult_fields query it sc).2.2, hI i it hg]
        constructor
        · intro j hj
          simp only [resolveFused, hf, hg, List.map_cons, hid, List.mem_cons] at hj
          rcases hj with rfl | hj2
          · exact List.mem_cons_self _ _
          · exact List.mem_cons_of_mem _ (ih.1 j hj2)
        · intro hnd
          simp only [List.map_cons, List.nodup_cons] at hnd
          simp only [resolveFused, hf, hg, List.map_cons, hid, List.nodup_cons]
          exact ⟨fun hmem => hnd.1 (ih.1 i hmem), ih.2 hnd.2⟩
      | none =>
        constructor
        · intro j hj
          simp only [resolveFused, hf, hg] at hj
          exact List.mem_cons_of_mem _ (ih.1 j hj)
        · intro hnd
          simp only [List.map_cons, List.nodup_cons] at hnd
          simp only [resolveFused, hf, hg]
          exact ih.2 hnd.2

theorem resolveFused_confidence (gF : String → Option FAQEntity)
    (gI : String → Option IntentEntity) (query : List Char) :
    ∀ (pairs : List (String × ℚ)) (r : SearchResult),
      r ∈ resolveFused gF gI query pairs → r.confidence = some r.score := by
  intro pairs
  induction pairs with
  | nil => intro r hr; cases hr
  | cons p rest ih =>
    obtain ⟨i, sc⟩ := p
    intro r hr
    cases hf : gF i with
    | some f =>
      simp only [resolveFused, hf, List.mem_cons] at hr
      rcases hr with rfl | hr2
      · rfl
      · exact ih r hr2
    | none =>
      cases hg : gI i with
      | some it =>
        simp only [resolveFused, hf, hg, List.mem_cons] at hr
        rcases hr with rfl | hr2
        · rw [(hybridIntentResult_fields query it sc).1,
            (hybridIntentResult_fields query it sc).2.1]
        · exact ih r hr2
      | none =>
        simp only [resolveFused, hf, hg] at hr
        exact ih r hr

/-!
Claim theorems.
-/

/-- C1: for every hybrid fusion, each candidate list's raw scores are
min-max normalized to `[0, 1]` (a list of all-equal scores normalizes to
all ones), and every entity id of the union of the two candidate lists
appears in the fused output paired with
`w_bm25 * norm_bm25(id) + w_vector * norm_vector(id)` at the default
weights `0.3` and `0.7`, an id absent from one list contributing `0` from
that side and never being disqualified. -/
theorem C1_hybrid_fusion_formula :
    (∀ l : List ℚ, ∀ x ∈ normalizeScores l, 0 ≤ x ∧ x ≤ 1) ∧
    (∀ (l : List ℚ) (c : ℚ), l ≠ [] → (∀ x ∈ l, x = c) →
      normalizeScores l = List.replicate l.length 1) ∧
    (∀ (bC vC : List (String × ℚ)) (enum : List String) (i : String),
      ValidEnum bC vC enum → (bC.map Prod.fst).Nodup → (vC.map Prod.fst).Nodup →
      (i ∈ bC.map Prod.fst ∨ i ∈ vC.map Prod.fst) →
      (i, (3/10) * normScoreOf bC i + (7/10) * normScoreOf vC i) ∈
        fuseScores (3/10) (7/10) bC vC enum) := by
  refine ⟨normalizeScores_bounds, normalizeScores_const, ?_⟩
  intro bC vC enum i hE hb hv hi
  have hienum : i ∈ enum := by
    rcases hi with h | h
    · exact hE.2.2.1 i h
    · exact hE.2.2.2 i h
  exact (fuseScores_perm _ _ _ _ _).mem_iff.2
    (mem_fusedUnsorted _ _ _ _ _ _ hb hv hienum)

/-- Witness for C1 at a concrete fusion: the id `"b"`, present in both
candidate lists, appears in the fused output with its weighted combined
normalized score. -/
theorem C1_hybrid_fusion_formula_witness :
    ("b", (3/10) * normScoreOf [("a", 1), ("b", 3)] "b" +
        (7/10) * normScoreOf [("b", 5), ("c", 7)] "b") ∈
      fuseScores (3/10) (7/10) [("a", 1), ("b", 3)] [("b", 5), ("c", 7)]
        ["c", "a", "b"] :=
  C1_hybrid_fusion_formula.2.2 [("a", 1), ("b", 3)] [("b", 5), ("c", 7)]
    ["c", "a", "b"] "b" (by decide) (by decide) (by decide) (Or.inl (by decide))

/-- C3 counterexample: the claim asks only that the two weights sum to 1;
with weights `2` and `-1` (which sum to 1) over min-max normalized inputs,
the fused score of `"b"` is `2`, outside `[0, 1]`. -/
theorem C3_fused_bounds_cex :
    (2 : ℚ) + (-1) = 1 ∧
    ValidEnum [("a", 0), ("b", 1)] [] ["a", "b"] ∧
    ("b", 2) ∈ fuseScores 2 (-1) [("a", 0), ("b", 1)] [] ["a", "b"] ∧
    ¬ ((2 : ℚ) ≤ 1) := by
  refine ⟨by norm_num, by decide, ?_, by norm_num⟩
  have hval : fuseScores 2 (-1) [("a", 0), ("b", 1)] [] ["a", "b"] =
      [("b", 2), ("a", 0)] := by
    simp [fuseScores, fusedUnsorted, normalizeScores, List.foldl, pyDictGet]
    norm_num [sortDescBy, insertDescBy]
  rw [hval]
  exact List.mem_cons_self _ _

/-- C3 amended: when the two weights are nonnegative and sum to 1, every
fused score of the hybrid fusion lies in `[0, 1]`. -/
theorem C3_fused_bounds (wB wV : ℚ) (bC vC : List (String × ℚ))
    (enum : List String) (hwB : 0 ≤ wB) (hwV : 0 ≤ wV) (hsum : wB + wV = 1) :
    ∀ p ∈ fuseScores wB wV bC vC enum, 0 ≤ p.2 ∧ p.2 ≤ 1 :=
  fuseScores_bounds wB wV bC vC enum hwB hwV hsum

/-- Witness for C3 at the default weights on a singleton candidate list:
the fused pair of `"a"` has its score inside `[0, 1]`. -/
theorem C3_fused_bounds_witness :
    0 ≤ (("a", (3 : ℚ)/10) : String × ℚ).2 ∧
      (("a", (3 : ℚ)/10) : String × ℚ).2 ≤ 1 :=
  C3_fused_bounds (3/10) (7/10) [("a", 1)] [] ["a"] (by norm_num) (by norm_num)
    (by norm_num) ("a", 3/10)
    (by
      have hval : fuseScores (3/10) (7/10) [("a", 1)] [] ["a"] = [("a", 3/10)] := by
        simp [fuseScores, fusedUnsorted, normalizeScores, List.foldl, pyDictGet]
        norm_num [sortDescBy, insertDescBy]
      rw [hval]
      exact List.mem_cons_self _ _)

/-- C4 counterexample: the union of the fused ids is a Python set, whose
iteration order is unspecified; under the valid set order `["b", "a"]` the
two ids tie at fused score `3/10` and come out in the order `b, a`, while
the order in which the ids are first encountered during union construction
is `a, b` — so equal-score ids need not follow first-encounter order. -/
theorem C4_tie_order_cex :
    ValidEnum [("a", 1), ("b", 1)] [] ["b", "a"] ∧
    firstEncountered [("a", 1), ("b", 1)] [] = ["a", "b"] ∧
    fuseScores (3/10) (7/10) [("a", 1), ("b", 1)] [] ["b", "a"] =
      [("b", 3/10), ("a", 3/10)] := by
  refine ⟨by decide, by decide, ?_⟩
  simp [fuseScores, fusedUnsorted, normalizeScores, List.foldl, pyDictGet]
  norm_num [sortDescBy, insertDescBy]

/-- C4 amended: the fused list is sorted descending by fused score, and
ids with equal fused scores keep their relative order from the set union's
enumeration (the sort is stable with respect to the enumeration order,
which CPython does not guarantee to be first-encounter order). -/
theorem C4_sorted_stable (wB wV : ℚ) (bC vC : List (String × ℚ))
    (enum : List String) :
    (fuseScores wB wV bC vC enum).Pairwise (fun a b => b.2 ≤ a.2) ∧
    ∀ q : ℚ, (fuseScores wB wV bC vC enum).filter (fun p => decide (p.2 = q)) =
      (fusedUnsorted wB wV bC vC enum).filter (fun p => decide (p.2 = q)) :=
  ⟨sortDescBy_sorted Prod.snd _, fun q => filter_sortDescBy Prod.snd _ q⟩

/-- C6: a BM25 search ranks every corpus phrase by score, truncates to the
`top_k` best phrases, discards non-positive scores, and deduplicates by
owning entity id keeping the first (highest-ranked) occurrence, so the
result ids are pairwise distinct. -/
theorem C6_bm25_pipeline (corpus : List DocEntry) (scores : List ℚ) (k : Nat)
    (gI : String → Option IntentEntity) (q : List Char) :
    (bm25Search corpus scores k gI q).map (fun r => (r.entityId, r.score)) =
      (dedupFirstBy (fun p => entityIdOf p.1)
          (((sortDescBy Prod.snd (corpus.zip scores)).take k).filter
            fun p => decide (0 < p.2))).map (fun p => (entityIdOf p.1, p.2)) ∧
    ((bm25Search corpus scores k gI q).map SearchResult.entityId).Nodup := by
  constructor
  · simpa [bm25Search, dedupFirstBy] using
      bm25Collect_proj gI q ((sortDescBy Prod.snd (corpus.zip scores)).take k) []
  · exact bm25Collect_ids_nodup gI q _ []

/-- C7 counterexample: a query on a never-initialized index does not
return empty when the document store is nonempty — `search` lazily calls
`initialize` and serves results from the freshly built index. -/
theorem C7_uninitialized_cex :
    (BM25State.mk [] false).initialized = false ∧
    (bm25SearchFull ⟨[], false⟩ [⟨"f1", "q", "a", "", "en", [], "c"⟩] []
        ["tok"] (fun _ => [1]) 1 (fun _ => none) "q".data).1 =
      [bm25FaqResult "f1" "q" "a" "" "en" false 1] := by
  refine ⟨rfl, ?_⟩
  norm_num [bm25SearchFull, bm25Initialize, expandCorpus, faqDocs, intentDocs,
    bm25Search, sortDescBy, insertDescBy, bm25Collect]

/-- C7 amended: a query on an uninitialized index first lazily initializes
it from the document store; with an empty store the state stays
uninitialized and the query returns an empty list, not an error. -/
theorem C7_empty_store_empty (st : BM25State) (queryTokens : List String)
    (scoreFn : List DocEntry → List ℚ) (k : Nat)
    (gI : String → Option IntentEntity) (q : List Char)
    (h : st.initialized = false) :
    (bm25SearchFull st [] [] queryTokens scoreFn k gI q).1 = [] := by
  simp [bm25SearchFull, bm25Initialize, h]

/-- Witness for C7 on a fresh state and an empty store. -/
theorem C7_empty_store_empty_witness :
    (bm25SearchFull ⟨[], false⟩ [] [] ["tok"] (fun _ => []) 5 (fun _ => none)
        "hi".data).1 = [] :=
  C7_empty_store_empty ⟨[], false⟩ ["tok"] (fun _ => []) 5 (fun _ => none)
    "hi".data rfl

/-- C2: within one query's output, no two results share an entity id, for
each of the three search methods; for the hybrid method this holds for
every possible set-union enumeration provided database lookups return the
entity that owns the looked-up id. -/
theorem C2_entity_ids_unique :
    (∀ (corpus : List DocEntry) (scores : List ℚ) (k : Nat)
        (gI : String → Option IntentEntity) (q : List Char),
      ((bm25Search corpus scores k gI q).map SearchResult.entityId).Nodup) ∧
    (∀ (hits : List VecHit) (k : Nat) (gF : String → Option FAQEntity)
        (gI : String → Option IntentEntity) (q : List Char),
      ((vectorSearch hits k gF gI q).map SearchResult.entityId).Nodup) ∧
    (∀ (wB wV : ℚ) (bC vC : List (String × ℚ)) (enum : List String) (k : Nat)
        (gF : String → Option FAQEntity) (gI : String → Option IntentEntity)
        (q : List Char), ValidEnum bC vC enum → FaqLookupConsistent gF →
      IntentLookupConsistent gI →
      ((hybridSearch wB wV bC vC enum k gF gI q).map
        SearchResult.entityId).Nodup) := by
  refine ⟨?_, ?_, ?_⟩
  · intro corpus scores k gI q
    exact bm25Collect_ids_nodup gI q _ []
  · intro hits k gF gI q
    have hnd := (vectorCollect_ids gF gI q hits []).2
    simp only [vectorSearch]
    rw [List.map_take]
    exact List.Nodup.sublist (List.take_sublist _ _) hnd
  · intro wB wV bC vC enum k gF gI q hE hF hI
    cases hq : (pyStrip q).isEmpty with
    | true => simp [hybridSearch, hq]
    | false =>
      cases hbv : bC.isEmpty && vC.isEmpty with
      | true => simp [hybridSearch, hq, hbv]
      | false =>
        have hstep : hybridSearch wB wV bC vC enum k gF gI q =
            resolveFused gF gI q ((fuseScores wB wV bC vC enum).take k) := by
          simp [hybridSearch, hq, hbv]
        rw [hstep]
        apply (resolveFused_ids gF gI q hF hI _).2
        have hperm : ((fuseScores wB wV bC vC enum).map Prod.fst).Perm enum := by
          have h2 := (fuseScores_perm wB wV bC vC enum).map Prod.fst
          rwa [fusedUnsorted_map_fst] at h2
        have hnd : ((fuseScores wB wV bC vC enum).map Prod.fst).Nodup :=
          hperm.nodup_iff.2 hE.1
        rw [List.map_take]
        exact List.Nodup.sublist (List.take_sublist _ _) hnd

/-- Witness for C2 on a concrete hybrid search with a consistent FAQ
lookup table. -/
theorem C2_entity_ids_unique_witness :
    ((hybridSearch (3/10) (7/10) [("x", 1)] [] ["x"] 1
        (fun i => some ⟨i, "q", "a", "", "en", [], "c"⟩) (fun _ => none)
        "hello".data).map SearchResult.entityId).Nodup :=
  C2_entity_ids_unique.2.2 (3/10) (7/10) [("x", 1)] [] ["x"] 1
    (fun i => some ⟨i, "q", "a", "", "en", [], "c"⟩) (fun _ => none)
    "hello".data (by decide) (fun i f h => by cases h; rfl)
    (fun i it h => Option.noConfusion h)

/-- C5: the hybrid entity-resolution loop tries a FAQ lookup first and an
Intent lookup only on a FAQ miss (a FAQ wins an id collision), silently
skips ids resolving to neither, and is applied by the hybrid search to the
`top_k` prefix of the fused ranking. -/
theorem C5_faq_first_resolution :
    (∀ (gF : String → Option FAQEntity) (gI : String → Option IntentEntity)
        (q : List Char) (i : String) (sc : ℚ) (rest : List (String × ℚ))
        (f : FAQEntity), gF i = some f →
      resolveFused gF gI q ((i, sc) :: rest) =
        hybridFaqResult f sc :: resolveFused gF gI q rest) ∧
    (∀ (gF : String → Option FAQEntity) (gI : String → Option IntentEntity)
        (q : List Char) (i : String) (sc : ℚ) (rest : List (String × ℚ))
        (it : IntentEntity), gF i = none → gI i = some it →
      resolveFused gF gI q ((i, sc) :: rest) =
        hybridIntentResult q it sc :: resolveFused gF gI q rest) ∧
    (∀ (gF : String → Option FAQEntity) (gI : String → Option IntentEntity)
        (q : List Char) (i : String) (sc : ℚ) (rest : List (String × ℚ)),
      gF i = none → gI i = none →
      resolveFused gF gI q ((i, sc) :: rest) = resolveFused gF gI q rest) ∧
    (∀ (wB wV : ℚ) (bC vC : List (String × ℚ)) (enum : List String) (k : Nat)
        (gF : String → Option FAQEntity) (gI : String → Option IntentEntity)
        (q : List Char), (pyStrip q).isEmpty = false →
      (bC.isEmpty && vC.isEmpty) = false →
      hybridSearch wB wV bC vC enum k gF gI q =
        resolveFused gF gI q ((fuseScores wB wV bC vC enum).take k)) := by
  refine ⟨?_, ?_, ?_, ?_⟩
  · intro gF gI q i sc rest f h
    simp [resolveFused, h]
  · intro gF gI q i sc rest it h1 h2
    simp [resolveFused, h1, h2]
  · intro gF gI q i sc rest h1 h2
    simp [resolveFused, h1, h2]
  · intro wB wV bC vC enum k gF gI q h1 h2
    simp [hybridSearch, h1, h2]

/-- Witness for C5: with a lookup table where the id resolves both as a
FAQ and as an Intent, resolution produces the FAQ result. -/
theorem C5_faq_first_resolution_witness :
    resolveFused (fun _ => some ⟨"x", "q", "a", "", "en", [], "c"⟩)
        (fun _ => some ⟨"x", "nm", "d", [], "t", "cfg", "en", "c"⟩)
        "hello".data (("x", 1) :: []) =
      hybridFaqResult ⟨"x", "q", "a", "", "en", [], "c"⟩ 1 ::
        resolveFused (fun _ => some ⟨"x", "q", "a", "", "en", [], "c"⟩)
          (fun _ => some ⟨"x", "nm", "d", [], "t", "cfg", "en", "c"⟩)
          "hello".data [] :=
  C5_faq_first_resolution.1 (fun _ => some ⟨"x", "q", "a", "", "en", [], "c"⟩)
    (fun _ => some ⟨"x", "nm", "d", [], "t", "cfg", "en", "c"⟩) "hello".data
    "x" 1 [] ⟨"x", "q", "a", "", "en", [], "c"⟩ rfl

/-- C8: slot extraction converts the phrase to a pattern of escaped
literals and named greedy groups with a whitespace-tolerant end anchor
when the phrase ends in a slot, searches the raw query case-insensitively
and unanchored, returns the named group values trimmed (the round-trip
example binds book_name to Dune and author to Herbert, also when the
phrase occurs later in the query in different case), and returns none both
on no match and on a pattern compilation failure. -/
theorem C8_slot_extraction :
    (extractParameters "search Dune by Herbert".data
        "search {book_name} by {author}".data =
      some [("book_name".data, "Dune".data), ("author".data, "Herbert".data)]) ∧
    (extractParameters "Please SEARCH Dune by Herbert".data
        "search {book_name} by {author}".data =
      some [("book_name".data, "Dune".data), ("author".data, "Herbert".data)]) ∧
    (∀ q p : List Char, hasSlots p = true → patternCompiles p = false →
      extractParameters q p = none) ∧
    (∀ q p : List Char, hasSlots p = true →
      searchSuffixes (convertToRegex p) q = none → extractParameters q p = none) ∧
    (∀ (q p : List Char) (gs : List (List Char × List Char)),
      hasSlots p = true → patternCompiles p = true →
      searchSuffixes (convertToRegex p) q = some gs →
      extractParameters q p = some (gs.map fun g => (g.1, pyStrip g.2))) := by
  refine ⟨by decide, by decide, ?_, ?_, ?_⟩
  · intro q p h1 h2
    simp [extractParameters, h1, h2]
  · intro q p h1 h2
    by_cases hc : patternCompiles p
    · simp [extractParameters, h1, hc, h2]
    · simp [extractParameters, h1, hc]
  · intro q p gs h1 h2 h3
    simp [extractParameters, h1, h2, h3]

/-- Witness for C8: a phrase with a duplicate slot name fails to compile
and extraction returns none instead of raising. -/
theorem C8_slot_extraction_witness :
    extractParameters "x".data "{a} {a}".data = none :=
  C8_slot_extraction.2.2.1 "x".data "{a} {a}".data (by decide) (by decide)

/-- C9: trigger phrases are tried in stored order and the first success
wins — a slotted phrase by successful extraction, a slot-free phrase by
mutual case-insensitive substring containment — later phrases are never
considered after a success, and a phrase whose pattern fails to compile is
skipped with the remaining phrases still tried. -/
theorem C9_first_match_wins :
    (∀ q : List Char, matchAndExtract q [] = (false, none, [])) ∧
    (∀ (q t : List Char) (ts : List (List Char))
        (ps : List (List Char × List Char)), hasSlots t = true →
      extractParameters q t = some ps →
      matchAndExtract q (t :: ts) = (true, some t, ps)) ∧
    (∀ (q t : List Char) (ts : List (List Char)), hasSlots t = true →
      extractParameters q t = none →
      matchAndExtract q (t :: ts) = matchAndExtract q ts) ∧
    (∀ (q t : List Char) (ts : List (List Char)), hasSlots t = true →
      patternCompiles t = false →
      matchAndExtract q (t :: ts) = matchAndExtract q ts) ∧
    (∀ (q t : List Char) (ts : List (List Char)), hasSlots t = false →
      (isSubstr (pyStrip (pyLower t)) (pyStrip (pyLower q)) ||
        isSubstr (pyStrip (pyLower q)) (pyStrip (pyLower t))) = true →
      matchAndExtract q (t :: ts) = (true, some t, [])) ∧
    (∀ (q t : List Char) (ts : List (List Char)), hasSlots t = false →
      (isSubstr (pyStrip (pyLower t)) (pyStrip (pyLower q)) ||
        isSubstr (pyStrip (pyLower q)) (pyStrip (pyLower t))) = false →
      matchAndExtract q (t :: ts) = matchAndExtract q ts) := by
  refine ⟨fun q => rfl, ?_, ?_, ?_, ?_, ?_⟩
  · intro q t ts ps h1 h2
    simp [matchAndExtract, h1, h2]
  · intro q t ts h1 h2
    simp [matchAndExtract, h1, h2]
  · intro q t ts h1 h2
    simp [matchAndExtract, extractParameters, h1, h2]
  · intro q t ts h1 h2
    simp [matchAndExtract, h1, h2]
  · intro q t ts h1 h2
    simp [matchAndExtract, h1, h2]

/-- Witness for C9: the first slotted phrase succeeds and a later phrase
is never considered. -/
theorem C9_first_match_wins_witness :
    matchAndExtract "search Dune by Herbert".data
        ["search {book_name} by {author}".data, "other".data] =
      (true, some "search {book_name} by {author}".data,
        [("book_name".data, "Dune".data), ("author".data, "Herbert".data)]) :=
  C9_first_match_wins.2.1 "search Dune by Herbert".data
    "search {book_name} by {author}".data ["other".data]
    [("book_name".data, "Dune".data), ("author".data, "Herbert".data)]
    (by decide) (by decide)

/-- C10: under every search method each returned result carries a
confidence equal to its score. -/
theorem C10_confidence_equals_score :
    (∀ (results : List SearchResult) (k : Nat) (r : SearchResult),
      r ∈ searchBM25Method results k → r.confidence = some r.score) ∧
    (∀ (results : List SearchResult) (k : Nat) (r : SearchResult),
      r ∈ searchVectorMethod results k → r.confidence = some r.score) ∧
    (∀ (wB wV : ℚ) (bC vC : List (String × ℚ)) (enum : List String) (k : Nat)
        (gF : String → Option FAQEntity) (gI : String → Option IntentEntity)
        (q : List Char) (r : SearchResult),
      r ∈ hybridSearch wB wV bC vC enum k gF gI q →
      r.confidence = some r.score) := by
  have hmb : ∀ (mb : String) (results : List SearchResult) (k : Nat)
      (r : SearchResult), r ∈ (applyMatchedBy mb results).take k →
      r.confidence = some r.score := by
    intro mb results k r hr
    have hr2 := List.mem_of_mem_take hr
    rcases List.mem_map.1 hr2 with ⟨x, _, rfl⟩
    rfl
  refine ⟨fun results k r hr => hmb "bm25" results k r hr,
    fun results k r hr => hmb "vector" results k r hr, ?_⟩
  intro wB wV bC vC enum k gF gI q r hr
  simp only [hybridSearch] at hr
  split at hr
  · cases hr
  · split at hr
    · cases hr
    · exact resolveFused_confidence gF gI q _ r hr

/-- Concrete result used by the C10 witness. -/
def sampleResult : SearchResult :=
  { rtype := "faq", entityId := "x", score := 1, confidence := some 1,
    matched_by := some "bm25" }

/-- Witness for C10 on a concrete bm25-method result. -/
theorem C10_confidence_equals_score_witness :
    sampleResult.confidence = some sampleResult.score :=
  C10_confidence_equals_score.1 [{ rtype := "faq", entityId := "x", score := 1 }]
    1 sampleResult (by decide)
